import Mathlib

/-!
Verification of the remotion chunked-render orchestration spec against the
repository sources.

Part A embeds the TypeScript sources that are present verbatim
(packages/renderer/src/symbolicate-stacktrace.ts, including the appended
createFunction helper).

Part B models the chunked render orchestration core (Chunk Planner,
Dispatcher, Progress Aggregator, Stitcher, Cost Estimator) from the
specification, since the implementing code is not among the provided
sources; each such definition carries a doc comment starting with
"Modelled from the spec:".
-/

namespace Remotion

/- ## Part A: symbolicate-stacktrace.ts -/

/-- Embeds type ScriptLine = \x7b lineNumber: number; content: string;
highlight: boolean \x7d. Line numbers are JS numbers; we model them as
integers. -/
structure ScriptLine where
  lineNumber : Int
  content : String
  highlight : Bool
  deriving Repr, DecidableEq

/-- Embeds getLinesAround(line, count, lines): the JS loop runs index from
max(0, line - 1 - count) to min(lines.length - 1, line - 1 + count),
pushing \x7b lineNumber: index + 1, content: lines[index],
highlight: index === line \x7d. -/
def getLinesAround (line count : Int) (lines : List String) : List ScriptLine :=
  let lo : Int := max 0 (line - 1 - count)
  let hi : Int := min ((lines.length : Int) - 1) (line - 1 + count)
  (List.range (hi + 1 - lo).toNat).map (fun i =>
    { lineNumber := lo + i + 1
      content := lines.getD (lo + (i : Int)).toNat ""
      highlight := decide (lo + (i : Int) = line) })

/-- A character admissible inside the URL capture group [^\s'"]+ of the
sourceMappingURL regex: not whitespace, not a single or double quote. -/
def isUrlChar (c : Char) : Bool :=
  !c.isWhitespace && c ≠ '\'' && c ≠ '"'

/-- Strips the directive opener of the regex /\/\/[#@] ?sourceMappingURL=/
from the front of a character list: two slashes, then # or @, then an
optional single space, then the literal sourceMappingURL=. Returns the
remainder on success. -/
def stripDirectiveOpen (cs : List Char) : Option (List Char) :=
  match cs with
  | '/' :: '/' :: c :: rest =>
      if c = '#' ∨ c = '@' then
        let rest2 := match rest with
          | ' ' :: r => r
          | r => r
        if ("sourceMappingURL=".data).isPrefixOf rest2 then
          some (rest2.drop ("sourceMappingURL=".data.length))
        else
          none
      else
        none
  | _ => none

/-- Attempts to match the full directive at the head of a line suffix:
the opener, then a nonempty run of URL characters (the capture group),
then nothing but whitespace up to the end of the line (the \s*$ anchor in
multiline mode). Returns the captured URL. -/
def directiveAt (cs : List Char) : Option String :=
  match stripDirectiveOpen cs with
  | none => none
  | some rest =>
      let url := rest.takeWhile isUrlChar
      let after := rest.dropWhile isUrlChar
      if url ≠ [] ∧ after.all Char.isWhitespace then
        some (String.mk url)
      else
        none

/-- The URL captured by the directive regex within one line: the
leftmost position whose match runs to the end of the line, exactly as a
regex engine scanning left to right finds it; at most one match per line
can succeed because a successful match consumes the rest of the line. -/
def lineDirectiveUrl : List Char → Option String
  | [] => directiveAt []
  | c :: rest =>
      match directiveAt (c :: rest) with
      | some u => some u
      | none => lineDirectiveUrl rest

/-- Splits a character stream into its lines at newline characters,
the character-level counterpart of splitting the file on the line
terminator. -/
def splitLines : List Char → List (List Char)
  | [] => [[]]
  | c :: rest =>
      if c = '\n' then
        [] :: splitLines rest
      else
        match splitLines rest with
        | [] => [[c]]
        | l :: ls => (c :: l) :: ls

/-- All per-line directive URLs of a file, in file order. The m flag makes
the $ anchor line-local, so matches are found line by line. -/
def directivesOf (fileContents : String) : List String :=
  (splitLines fileContents.data).filterMap lineDirectiveUrl

/-- Embeds extractSourceMapUrl(fileUri, fileContents): a global regex exec
loop keeps overwriting match with each successive hit, so the final match
is the last one in the file; absence of any match rejects with an error
naming the fileUri. Promise resolution/rejection is modelled as Except. -/
def extractSourceMapUrl (fileUri fileContents : String) : Except String String :=
  match (directivesOf fileContents).getLast? with
  | some url => Except.ok url
  | none => Except.error ("Cannot find a source map directive for " ++ fileUri ++ ".")

/-- JS single-character string indexing s[i]: yields the one-character
string at position i, or the string form of undefined when out of range
(template literals stringify undefined). -/
def jsStringIndex (s : String) (i : Nat) : String :=
  match s.data.drop i with
  | [] => "undefined"
  | c :: _ => String.mk [c]

/-- The Role field built by createFunction:
arn:aws:iam::$\x7baccountId[1]\x7d:role/remotion-lambda-role. -/
def createFunctionRole (accountId : String) : String :=
  "arn:aws:iam::" ++ jsStringIndex accountId 1 ++ ":role/remotion-lambda-role"

/-- The pure payload of the CreateFunctionCommand sent by createFunction.
The Code.ZipFile bytes come from reading zipFile on disk; we carry the
path. -/
structure CreateFunctionCommandInput where
  CodeZipFilePath : String
  FunctionName : String
  Handler : String
  Role : String
  Runtime : String
  Description : String
  MemorySize : Nat
  Timeout : Nat
  Layers : List String
  deriving Repr, DecidableEq

/-- Embeds the CreateFunctionCommand construction inside createFunction. -/
def createFunctionCommand (zipFile functionName accountId : String)
    (memorySizeInMb timeoutInSeconds : Nat) (layerArn : String) :
    CreateFunctionCommandInput :=
  { CodeZipFilePath := zipFile
    FunctionName := functionName
    Handler := "index.handler"
    Role := createFunctionRole accountId
    Runtime := "nodejs14.x"
    Description := "Renders a Remotion video."
    MemorySize := memorySizeInMb
    Timeout := timeoutInSeconds
    Layers := [layerArn] }

/- ## Part B: chunked render orchestration, modelled from the spec -/

/-- Modelled from the spec: the error taxonomy of section 7 (the Chunk
Planner, Dispatcher, Worker and Stitcher error kinds). -/
inductive RenderErrorKind where
  | InvalidFrameCount
  | InvocationError
  | WorkerRenderError
  | StitchError
  deriving Repr, DecidableEq

/-- Modelled from the spec: the chunk lifecycle states of a
ChunkInvocationRecord (section 3). -/
inductive ChunkState where
  | Pending
  | Invoked
  | Succeeded
  | Failed
  deriving Repr, DecidableEq

/-- Modelled from the spec: ChunkInvocationRecord (section 3); one per
planned chunk, created by the Dispatcher and terminal-written by the
Worker. Frame ranges are half-open [start, stop). -/
structure ChunkInvocationRecord where
  chunkIndex : Nat
  frameRange : Nat × Nat
  state : ChunkState
  attemptCount : Nat
  durationMs : Option Nat
  memorySizeMb : Nat
  artifactKey : Option String
  errorMessage : Option String
  deriving Repr, DecidableEq

/-- Modelled from the spec: ErrorRecord (section 3), append-only. -/
structure ErrorRecord where
  chunkIndex : Option Nat
  message : String
  timestamp : Nat
  fatal : Bool
  deriving Repr, DecidableEq

/-- Modelled from the spec: the durable per-job state held in the State
Store (section 3): immutable RenderJob metadata, the chunk records, the
append-only error list, the optional EncodingProgressRecord, the
completion fields written by the Stitcher, and the final artifact
(modelled as the ordered list of concatenated chunk artifact keys). -/
structure JobState where
  renderId : String
  totalFrames : Nat
  totalChunks : Nat
  startedDate : Nat
  records : List ChunkInvocationRecord
  errors : List ErrorRecord
  encodingProgress : Option Nat
  outputFile : Option String
  outKey : Option String
  timeToFinish : Option Nat
  done : Bool
  finalArtifact : Option (List String)
  deriving Repr, DecidableEq

/-- Modelled from the spec: the externally visible RenderSnapshot
(sections 3 and 6), derived on each read and never persisted.
renderMetadata is flattened to the fields the claims mention. -/
structure RenderSnapshot where
  chunks : Nat
  done : Bool
  encodingStatus : Option Nat
  outputFile : Option String
  outKey : Option String
  timeToFinish : Option Nat
  errors : List ErrorRecord
  fatalErrorEncountered : Bool
  lambdasInvoked : Nat
  totalChunks : Nat
  deriving Repr, DecidableEq

/-- Modelled from the spec: the Progress Aggregator read path (section
4.5). chunks counts Succeeded records, lambdasInvoked counts records in
state Invoked or later, fatalErrorEncountered is true iff some
ErrorRecord is fatal, and the EncodingProgressRecord is superseded once
the job reaches Done (section 3, and the section 8 scenario where the
completed job reports encodingStatus = null). -/
def getRenderProgress (s : JobState) : RenderSnapshot :=
  { chunks := s.records.countP (fun r => r.state == ChunkState.Succeeded)
    done := s.done
    encodingStatus := if s.done then none else s.encodingProgress
    outputFile := s.outputFile
    outKey := s.outKey
    timeToFinish := s.timeToFinish
    errors := s.errors
    fatalErrorEncountered := s.errors.any (fun e => e.fatal)
    lambdasInvoked := s.records.countP (fun r => r.state != ChunkState.Pending)
    totalChunks := s.totalChunks }

/-- Modelled from the spec: the chunk-count policy of the Chunk Planner
(section 4.1): smaller totalFrames yield fewer chunks (never more chunks
than frames, so every chunk is nonempty), larger totalFrames are capped
at the concurrency bound (taken to be at least 1). -/
def planChunkCount (totalFrames concurrencyBound : Nat) : Nat :=
  min totalFrames (max 1 concurrencyBound)

/-- Modelled from the spec: the start frame of chunk i when totalFrames
frames are split into totalChunks balanced contiguous chunks: the first
totalFrames % totalChunks chunks receive one extra frame. -/
def chunkStart (totalFrames totalChunks i : Nat) : Nat :=
  i * (totalFrames / totalChunks) + min i (totalFrames % totalChunks)

/-- Modelled from the spec: the ordered chunk frame ranges, chunk i
covering [chunkStart i, chunkStart (i+1)). -/
def planFrameRanges (totalFrames totalChunks : Nat) : List (Nat × Nat) :=
  (List.range totalChunks).map (fun i =>
    (chunkStart totalFrames totalChunks i, chunkStart totalFrames totalChunks (i + 1)))

/-- Modelled from the spec: the Chunk Planner (section 4.1). Fails with
InvalidFrameCount if totalFrames <= 0; otherwise returns the ordered
chunk ranges. The optimization profile may only re-balance boundaries
using an external frame-cost hint, which is outside this core, so the
boundary layout is the balanced one in either mode. -/
def planChunks (totalFrames : Int) (concurrencyBound : Nat)
    (usesOptimizationProfile : Bool) : Except RenderErrorKind (List (Nat × Nat)) :=
  if totalFrames ≤ 0 then
    Except.error RenderErrorKind.InvalidFrameCount
  else
    Except.ok (planFrameRanges totalFrames.toNat
      (planChunkCount totalFrames.toNat concurrencyBound))

/-- Modelled from the spec: the input of dispatchRender (sections 4.2 and
3): render metadata plus the planner inputs. -/
structure DispatchInput where
  renderId : String
  totalFrames : Int
  concurrencyBound : Nat
  usesOptimizationProfile : Bool
  startedDate : Nat
  memorySizeMb : Nat
  deriving Repr, DecidableEq

/-- Modelled from the spec: the Dispatcher (section 4.2). Validation
errors are the only synchronous failures; invocation issuance is driven
by the oracle invokeOk (true when issuance eventually succeeds within the
bounded retry budget). Chunks are dispatched in index order; the first
chunk whose issuance retries are exhausted gets a fatal ErrorRecord and
aborts further dispatch, leaving it and all later chunks Pending. -/
def dispatchRender (inp : DispatchInput) (invokeOk : Nat → Bool) :
    Except RenderErrorKind JobState :=
  match planChunks inp.totalFrames inp.concurrencyBound inp.usesOptimizationProfile with
  | Except.error e => Except.error e
  | Except.ok ranges =>
      let k := ranges.length
      let firstFail := (List.range k).find? (fun i => !invokeOk i)
      Except.ok
        { renderId := inp.renderId
          totalFrames := inp.totalFrames.toNat
          totalChunks := k
          startedDate := inp.startedDate
          records := (List.range k).map (fun i =>
            { chunkIndex := i
              frameRange := ranges.getD i (0, 0)
              state := if (List.range (i + 1)).all invokeOk then
                  ChunkState.Invoked
                else
                  ChunkState.Pending
              attemptCount := if (List.range (i + 1)).all invokeOk then 1 else 0
              durationMs := none
              memorySizeMb := inp.memorySizeMb
              artifactKey := none
              errorMessage := none })
          errors := match firstFail with
            | some i => [{ chunkIndex := some i
                           message := "Chunk could not be invoked"
                           timestamp := inp.startedDate
                           fatal := true }]
            | none => []
          encodingProgress := none
          outputFile := none
          outKey := none
          timeToFinish := none
          done := false
          finalArtifact := none }

/-- Modelled from the spec: the asynchronous events that mutate durable
job state after dispatch (sections 4.3, 4.4, 5): worker terminal writes,
chunk re-invocation after failure, and the Stitcher's begin / progress /
complete / fail writes. -/
inductive RenderEvent where
  | workerStart (i : Nat)
  | workerSucceed (i : Nat) (artifactKey : String) (durMs : Nat)
  | workerFail (i : Nat) (msg : String) (durMs timestamp : Nat) (fatal : Bool)
  | retryChunk (i : Nat)
  | stitchStart
  | stitchProgress (framesEncoded : Nat)
  | stitchComplete (outputFile outKey : String) (now : Nat)
  | stitchFail (msg : String) (timestamp : Nat)
  deriving Repr, DecidableEq

/-- Modelled from the spec: guarded application of one event to the job
state (sections 4.3 to 4.5). A worker terminal write happens only on an
Invoked chunk; a Succeeded record is never overwritten; re-invocation
happens only on a Failed chunk and increments attemptCount; stitching
starts only when every chunk has Succeeded, no fatal error exists, and
the job is not done; the encoding counter is monotone; completion writes
outputFile, outKey, timeToFinish, the concatenated artifact and done
together. Returns none when the guard refuses the event. -/
def applyEvent (e : RenderEvent) (s : JobState) : Option JobState :=
  match e with
  | RenderEvent.workerStart i =>
      match s.records[i]? with
      | some r =>
          if r.state = ChunkState.Pending then
            let r2 := { r with state := ChunkState.Invoked, attemptCount := r.attemptCount + 1 }
            some { s with records := s.records.set i r2 }
          else none
      | none => none
  | RenderEvent.workerSucceed i key dur =>
      match s.records[i]? with
      | some r =>
          if r.state = ChunkState.Invoked then
            let r2 := { r with state := ChunkState.Succeeded, durationMs := some dur,
                               artifactKey := some key }
            some { s with records := s.records.set i r2 }
          else none
      | none => none
  | RenderEvent.workerFail i msg dur ts fatal =>
      match s.records[i]? with
      | some r =>
          if r.state = ChunkState.Invoked then
            let r2 := { r with state := ChunkState.Failed, durationMs := some dur,
                               errorMessage := some msg }
            let er : ErrorRecord :=
              { chunkIndex := some i, message := msg, timestamp := ts, fatal := fatal }
            some { s with records := s.records.set i r2, errors := s.errors ++ [er] }
          else none
      | none => none
  | RenderEvent.retryChunk i =>
      match s.records[i]? with
      | some r =>
          if r.state = ChunkState.Failed then
            let r2 := { r with state := ChunkState.Invoked, attemptCount := r.attemptCount + 1 }
            some { s with records := s.records.set i r2 }
          else none
      | none => none
  | RenderEvent.stitchStart =>
      if s.records.all (fun r => r.state == ChunkState.Succeeded)
          && !s.errors.any (fun er => er.fatal)
          && s.encodingProgress == none
          && !s.done then
        some { s with encodingProgress := some 0 }
      else none
  | RenderEvent.stitchProgress n =>
      match s.encodingProgress with
      | some m => if m ≤ n ∧ s.done = false then
            some { s with encodingProgress := some n }
          else none
      | none => none
  | RenderEvent.stitchComplete file key now =>
      match s.encodingProgress with
      | some _ =>
          if s.done = false then
            some { s with
              outputFile := some file
              outKey := some key
              timeToFinish := some (now - s.startedDate)
              done := true
              finalArtifact := some (s.records.filterMap (fun r => r.artifactKey)) }
          else none
      | none => none
  | RenderEvent.stitchFail msg ts =>
      match s.encodingProgress with
      | some _ =>
          if s.done = false then
            some { s with errors := s.errors ++
              [{ chunkIndex := none, message := msg, timestamp := ts, fatal := true }] }
          else none
      | none => none

/-- One asynchronous storage transition between job states. -/
def StepRel (s t : JobState) : Prop :=
  ∃ e : RenderEvent, applyEvent e s = some t

/-- Zero or more asynchronous transitions. -/
def StepStar (s t : JobState) : Prop :=
  Relation.ReflTransGen StepRel s t

/-- A job state observable through the progress protocol: produced by a
successful dispatch and evolved by asynchronous events. -/
def Reached (s : JobState) : Prop :=
  ∃ (inp : DispatchInput) (invokeOk : Nat → Bool) (s0 : JobState),
    dispatchRender inp invokeOk = Except.ok s0 ∧ StepStar s0 s

/-- Modelled from the spec: one whole Stitcher invocation (sections 4.4
and 5). It first detects an already-completed job (done = true) and
no-ops; otherwise, if the trigger condition holds (all chunks Succeeded
and no fatal error), it concatenates the chunk artifacts in index order
and writes outputFile, outKey, timeToFinish and done; otherwise it
no-ops. -/
def runStitcher (s : JobState) (file key : String) (now : Nat) : JobState :=
  if s.done then s
  else if s.records.all (fun r => r.state == ChunkState.Succeeded)
      && !s.errors.any (fun er => er.fatal) then
    { s with
      encodingProgress := some s.totalFrames
      outputFile := some file
      outKey := some key
      timeToFinish := some (now - s.startedDate)
      done := true
      finalArtifact := some (s.records.filterMap (fun r => r.artifactKey)) }
  else s

/-- Modelled from the spec: the billing parameters of the Cost Estimator
(section 4.6), exposed as configurable parametersize per the design
notes. Prices are rationals. -/
structure CostParameters where
  billingIncrementMs : Nat
  pricePerMsPerMb : ℚ
  perInvocationBaseCharge : ℚ
  deriving Repr, DecidableEq

/-- Modelled from the spec: a duration rounded up to the billing
increment: ceil(durationMs / billingIncrementMs) * billingIncrementMs,
computed on naturals. -/
def billedDurationMs (p : CostParameters) (d : Nat) : Nat :=
  ((d + p.billingIncrementMs - 1) / p.billingIncrementMs) * p.billingIncrementMs

/-- Modelled from the spec: the billed cost contributed by one
ChunkInvocationRecord: zero without a recorded durationMs, otherwise the
rounded duration times pricePerMsPerMb times memorySizeMb, regardless of
the record's state. -/
def recordCost (p : CostParameters) (r : ChunkInvocationRecord) : ℚ :=
  match r.durationMs with
  | none => 0
  | some d => (billedDurationMs p d : ℚ) * p.pricePerMsPerMb * (r.memorySizeMb : ℚ)

/-- Modelled from the spec: the Cost Estimator (section 4.6): the sum of
the per-record billed costs over every record carrying a durationMs, plus
the base charge per invocation times lambdasInvoked. -/
def estimatePrice (p : CostParameters) (records : List ChunkInvocationRecord)
    (lambdasInvoked : Nat) : ℚ :=
  records.foldl (fun acc r => acc + recordCost p r) 0
    + p.perInvocationBaseCharge * (lambdasInvoked : ℚ)

/-- The integer interval [a, b] as an explicit list, used to state the
claims about consecutive line numbers. -/
def intRangeList (a b : Int) : List Int :=
  (List.range (b + 1 - a).toNat).map (fun i => a + (i : Int))

/-- The number of Succeeded chunk records of a job state; the chunks
field of the snapshot. -/
def succeededCount (s : JobState) : Nat :=
  s.records.countP (fun r => r.state == ChunkState.Succeeded)

/-- The storage invariant maintained by dispatch and every asynchronous
event: one record per planned chunk, the completion fields written
together with the done flag, and an encoding-progress record only after
every chunk has succeeded. -/
def JobInvariant (s : JobState) : Prop :=
  s.records.length = s.totalChunks
  ∧ (s.done = true ↔ (s.outputFile.isSome ∧ s.outKey.isSome ∧ s.timeToFinish.isSome))
  ∧ (s.encodingProgress.isSome → ∀ r ∈ s.records, r.state = ChunkState.Succeeded)

/-- A job state with nothing in it, used as a fallback when peeling
Except values on concrete runs. -/
def emptyJobState : JobState :=
  { renderId := ""
    totalFrames := 0
    totalChunks := 0
    startedDate := 0
    records := []
    errors := []
    encodingProgress := none
    outputFile := none
    outKey := none
    timeToFinish := none
    done := false
    finalArtifact := none }

/-- A concrete dispatch input: 4 frames at concurrency bound 2. -/
def demoInput : DispatchInput :=
  { renderId := "demo"
    totalFrames := 4
    concurrencyBound := 2
    usesOptimizationProfile := false
    startedDate := 10
    memorySizeMb := 2048 }

/-- The job state right after dispatching demoInput with all invocations
succeeding. -/
def demoState : JobState :=
  (dispatchRender demoInput (fun _ => true)).toOption.getD emptyJobState

/-- demoState after chunk 0 succeeds (duration 1500 ms). -/
def demoS1 : JobState :=
  (applyEvent (RenderEvent.workerSucceed 0 "chunk0" 1500) demoState).getD demoState

/-- demoS1 after chunk 1 succeeds (duration 2200 ms). -/
def demoS2 : JobState :=
  (applyEvent (RenderEvent.workerSucceed 1 "chunk1" 2200) demoS1).getD demoS1

/-- demoS2 after the Stitcher begins. -/
def demoS3 : JobState :=
  (applyEvent RenderEvent.stitchStart demoS2).getD demoS2

/-- demoS3 after the Stitcher completes. -/
def demoS4 : JobState :=
  (applyEvent (RenderEvent.stitchComplete "https://bucket/out.mp4" "renders/demo/out.mp4" 60)
    demoS3).getD demoS3

/- ## Theorems -/

/-- C9: getLinesAround returns entries with consecutive 1-based line
numbers from max(1, line - count) to min(lines.length, line + count); the
highlight flag is true exactly on the entry whose 0-based index equals
line, i.e. whose lineNumber is line + 1, so the entry whose lineNumber
equals the requested line is never highlighted. -/
theorem getLinesAround_spec (line count : Int) (lines : List String) (hc : 0 ≤ count) :
    (getLinesAround line count lines).map (fun e => e.lineNumber)
        = intRangeList (max 1 (line - count)) (min (lines.length : Int) (line + count))
    ∧ (∀ e ∈ getLinesAround line count lines, (e.highlight = true ↔ e.lineNumber = line + 1))
    ∧ (∀ e ∈ getLinesAround line count lines, e.lineNumber = line → e.highlight = false) := by
  refine ⟨?_, ?_, ?_⟩
  · simp only [getLinesAround, intRangeList, List.map_map]
    have hn : (min ((lines.length : Int)) (line + count) + 1 - max 1 (line - count)).toNat
        = (min ((lines.length : Int) - 1) (line - 1 + count) + 1
            - max 0 (line - 1 - count)).toNat := by
      omega
    rw [hn]
    congr 1
    funext i
    simp only [Function.comp_apply]
    omega
  · intro e he
    simp only [getLinesAround, List.mem_map, List.mem_range] at he
    obtain ⟨i, hi, rfl⟩ := he
    simp only [decide_eq_true_eq]
    omega
  · intro e he
    simp only [getLinesAround, List.mem_map, List.mem_range] at he
    obtain ⟨i, hi, rfl⟩ := he
    intro hline
    simp only [decide_eq_false_iff_not]
    simp only at hline
    omega

/-- C9 witness: a concrete instantiation with line 3, count 2 and six
lines. -/
theorem getLinesAround_spec_witness :
    (getLinesAround 3 2 ["l1", "l2", "l3", "l4", "l5", "l6"]).map (fun e => e.lineNumber)
        = intRangeList (max 1 (3 - 2)) (min (([("l1" : String), "l2", "l3", "l4", "l5", "l6"].length : Int)) (3 + 2))
    ∧ (∀ e ∈ getLinesAround 3 2 ["l1", "l2", "l3", "l4", "l5", "l6"],
        (e.highlight = true ↔ e.lineNumber = 3 + 1))
    ∧ (∀ e ∈ getLinesAround 3 2 ["l1", "l2", "l3", "l4", "l5", "l6"],
        e.lineNumber = 3 → e.highlight = false) :=
  getLinesAround_spec 3 2 ["l1", "l2", "l3", "l4", "l5", "l6"] (by decide)

/-- C10: extractSourceMapUrl resolves to the URL of the last
sourceMappingURL directive of the file when one exists, and otherwise
rejects with an error naming the fileUri. -/
theorem extractSourceMapUrl_last_or_error (fileUri fileContents : String) :
    (∀ url, (directivesOf fileContents).getLast? = some url →
        extractSourceMapUrl fileUri fileContents = Except.ok url)
    ∧ (directivesOf fileContents = [] →
        extractSourceMapUrl fileUri fileContents
          = Except.error ("Cannot find a source map directive for " ++ fileUri ++ ".")) := by
  constructor
  · intro url h
    simp [extractSourceMapUrl, h]
  · intro h
    simp [extractSourceMapUrl, h]

/-- C10 witness: with two directives in the file, the resolved URL is the
second (last) one, not the first. -/
theorem extractSourceMapUrl_last_or_error_witness :
    extractSourceMapUrl "file.js"
        ("x = 1;\n//# sourceMappingURL=first.map\ncode();\n//# sourceMappingURL=second.map")
      = Except.ok "second.map" :=
  (extractSourceMapUrl_last_or_error "file.js"
    ("x = 1;\n//# sourceMappingURL=first.map\ncode();\n//# sourceMappingURL=second.map")).1
    "second.map" (by decide)

/-- C8: for an accountId of length at least 2, the Role field sent by
createFunction embeds only the single character of accountId at index 1
between the fixed ARN prefix and suffix; the Role string has constant
length 40, independent of the account id. -/
theorem createFunction_role_second_char (zipFile functionName accountId : String)
    (memorySizeInMb timeoutInSeconds : Nat) (layerArn : String)
    (h : 2 ≤ accountId.length) :
    (createFunctionCommand zipFile functionName accountId memorySizeInMb
        timeoutInSeconds layerArn).Role
      = "arn:aws:iam::" ++ String.mk [accountId.data.getD 1 ' ']
          ++ ":role/remotion-lambda-role"
    ∧ (createFunctionCommand zipFile functionName accountId memorySizeInMb
        timeoutInSeconds layerArn).Role.length = 40 := by
  obtain ⟨l⟩ := accountId
  have hl : 2 ≤ l.length := h
  rcases l with _ | ⟨a, _ | ⟨b, rest⟩⟩
  · simp at hl
  · simp at hl
  · constructor
    · rfl
    · rfl

/-- C8 witness: instantiation at a 12-digit account id. -/
theorem createFunction_role_second_char_witness :
    (createFunctionCommand "out.zip" "remotion-render" "123456789012" 2048 120
        "arn:layer").Role
      = "arn:aws:iam::" ++ String.mk [("123456789012" : String).data.getD 1 ' ']
          ++ ":role/remotion-lambda-role"
    ∧ (createFunctionCommand "out.zip" "remotion-render" "123456789012" 2048 120
        "arn:layer").Role.length = 40 :=
  createFunction_role_second_char "out.zip" "remotion-render" "123456789012" 2048 120
    "arn:layer" (by decide)

/- ### Chunk Planner lemmas -/

theorem chunkStart_zero (n k : Nat) : chunkStart n k 0 = 0 := by
  simp [chunkStart]

theorem chunkStart_last (n k : Nat) (hk : 0 < k) : chunkStart n k k = n := by
  unfold chunkStart
  have hmod : n % k < k := Nat.mod_lt _ hk
  have hdm : k * (n / k) + n % k = n := Nat.div_add_mod n k
  have hmin : min k (n % k) = n % k := by omega
  rw [hmin]
  have hcomm : k * (n / k) = n / k * k := Nat.mul_comm _ _
  omega

theorem chunkStart_lt_succ (n k i : Nat) (hk : 0 < k) (hkn : k ≤ n) :
    chunkStart n k i < chunkStart n k (i + 1) := by
  unfold chunkStart
  have hq : 1 ≤ n / k := (Nat.one_le_div_iff hk).2 hkn
  have hmul : (i + 1) * (n / k) = i * (n / k) + n / k := by ring
  rw [hmul]
  have hmin : min i (n % k) ≤ min (i + 1) (n % k) := by omega
  omega

theorem chunkStart_mono (n k : Nat) {i j : Nat} (hij : i ≤ j) :
    chunkStart n k i ≤ chunkStart n k j := by
  unfold chunkStart
  have hmul : i * (n / k) ≤ j * (n / k) := Nat.mul_le_mul_right _ hij
  have hmin : min i (n % k) ≤ min j (n % k) := by omega
  omega

theorem exists_segment (g : Nat → Nat) (h0 : g 0 = 0) :
    ∀ (k f : Nat), f < g k → ∃ i, i < k ∧ g i ≤ f ∧ f < g (i + 1) := by
  intro k
  induction k with
  | zero => intro f hf; omega
  | succ m ih =>
      intro f hf
      by_cases hm : g m ≤ f
      · exact ⟨m, Nat.lt_succ_self m, hm, hf⟩
      · obtain ⟨i, hik, hle, hlt⟩ := ih f (by omega)
        exact ⟨i, by omega, hle, hlt⟩

theorem planFrameRanges_length (n k : Nat) : (planFrameRanges n k).length = k := by
  simp [planFrameRanges]

theorem planFrameRanges_get (n k i : Nat) (hi : i < (planFrameRanges n k).length) :
    (planFrameRanges n k).get ⟨i, hi⟩ = (chunkStart n k i, chunkStart n k (i + 1)) := by
  simp [planFrameRanges]

/-- C1: for every positive totalFrames, any concurrency bound and any
optimization flag, the Chunk Planner returns an ordered sequence of
exactly totalChunks frame ranges [start, stop) that are nonempty and
contiguous, pairwise non-overlapping, adjacent in order, and whose union
is exactly the frame interval [0, totalFrames). -/
theorem chunkPlanner_partition (totalFrames : Int) (concurrencyBound : Nat)
    (usesOptimizationProfile : Bool) (h : 0 < totalFrames) :
    ∃ l : List (Nat × Nat),
      planChunks totalFrames concurrencyBound usesOptimizationProfile = Except.ok l
      ∧ l.length = planChunkCount totalFrames.toNat concurrencyBound
      ∧ 0 < l.length
      ∧ (∀ (i : Nat) (hi : i < l.length), (l.get ⟨i, hi⟩).1 < (l.get ⟨i, hi⟩).2)
      ∧ (∀ (i : Nat) (hi1 : i + 1 < l.length) (hi : i < l.length),
          (l.get ⟨i, hi⟩).2 = (l.get ⟨i + 1, hi1⟩).1)
      ∧ (∀ (i j : Nat) (hi : i < l.length) (hj : j < l.length), i < j →
          (l.get ⟨i, hi⟩).2 ≤ (l.get ⟨j, hj⟩).1)
      ∧ (∀ f : Nat, f < totalFrames.toNat ↔
          ∃ (i : Nat) (hi : i < l.length), (l.get ⟨i, hi⟩).1 ≤ f ∧ f < (l.get ⟨i, hi⟩).2) := by
  have hn0 : 0 < totalFrames.toNat := by omega
  set n := totalFrames.toNat with hn
  set k := planChunkCount n concurrencyBound with hk
  have hk0 : 0 < k := by
    rw [hk]
    unfold planChunkCount
    omega
  have hkn : k ≤ n := by
    rw [hk]
    unfold planChunkCount
    omega
  refine ⟨planFrameRanges n k, ?_, planFrameRanges_length n k, ?_, ?_, ?_, ?_, ?_⟩
  · unfold planChunks
    rw [if_neg (by omega)]
  · rw [planFrameRanges_length]
    exact hk0
  · intro i hi
    rw [planFrameRanges_get n k i hi]
    exact chunkStart_lt_succ n k i hk0 hkn
  · intro i hi1 hi
    rw [planFrameRanges_get n k i hi, planFrameRanges_get n k (i + 1) hi1]
  · intro i j hi hj hij
    rw [planFrameRanges_get n k i hi, planFrameRanges_get n k j hj]
    exact chunkStart_mono n k (by omega)
  · intro f
    constructor
    · intro hf
      have hfk : f < chunkStart n k k := by
        rw [chunkStart_last n k hk0]
        exact hf
      obtain ⟨i, hik, hle, hlt⟩ :=
        exists_segment (chunkStart n k) (chunkStart_zero n k) k f hfk
      have hi : i < (planFrameRanges n k).length := by
        rw [planFrameRanges_length]; exact hik
      refine ⟨i, hi, ?_, ?_⟩
      · rw [planFrameRanges_get n k i hi]; exact hle
      · rw [planFrameRanges_get n k i hi]; exact hlt
    · rintro ⟨i, hi, hle, hlt⟩
      rw [planFrameRanges_get n k i hi] at hle hlt
      have hik : i < k := by
        have := hi
        rw [planFrameRanges_length] at this
        exact this
      have hbound : chunkStart n k (i + 1) ≤ chunkStart n k k :=
        chunkStart_mono n k (by omega)
      rw [chunkStart_last n k hk0] at hbound
      omega

/-- C1 witness: the spec's own example, 1920 frames at concurrency bound
10: ten contiguous ranges covering [0, 1920). -/
theorem chunkPlanner_partition_witness :
    ∃ l : List (Nat × Nat),
      planChunks 1920 10 false = Except.ok l
      ∧ l.length = planChunkCount (1920 : Int).toNat 10
      ∧ 0 < l.length
      ∧ (∀ (i : Nat) (hi : i < l.length), (l.get ⟨i, hi⟩).1 < (l.get ⟨i, hi⟩).2)
      ∧ (∀ (i : Nat) (hi1 : i + 1 < l.length) (hi : i < l.length),
          (l.get ⟨i, hi⟩).2 = (l.get ⟨i + 1, hi1⟩).1)
      ∧ (∀ (i j : Nat) (hi : i < l.length) (hj : j < l.length), i < j →
          (l.get ⟨i, hi⟩).2 ≤ (l.get ⟨j, hj⟩).1)
      ∧ (∀ f : Nat, f < (1920 : Int).toNat ↔
          ∃ (i : Nat) (hi : i < l.length), (l.get ⟨i, hi⟩).1 ≤ f ∧ f < (l.get ⟨i, hi⟩).2) :=
  chunkPlanner_partition 1920 10 false (by decide)

/- ### State machine lemmas -/

theorem mem_of_getElem_eq_some {α : Type} {l : List α} {i : Nat} {a : α}
    (h : l[i]? = some a) : a ∈ l := by
  rw [List.getElem?_eq_some] at h
  obtain ⟨hlt, rfl⟩ := h
  exact List.getElem_mem hlt

theorem countP_set_eq {α : Type} (p : α → Bool) :
    ∀ (l : List α) (i : Nat) (a x : α), l[i]? = some a →
      (l.set i x).countP p + (if p a then 1 else 0)
        = l.countP p + (if p x then 1 else 0) := by
  intro l
  induction l with
  | nil => intro i a x h; simp at h
  | cons b tl ih =>
      intro i a x h
      cases i with
      | zero =>
          simp only [List.getElem?_cons_zero, Option.some.injEq] at h
          subst h
          simp only [List.set_cons_zero, List.countP_cons]
          omega
      | succ j =>
          simp only [List.getElem?_cons_succ] at h
          simp only [List.set_cons_succ, List.countP_cons]
          have := ih j a x h
          omega

theorem applyEvent_preserves_invariant (e : RenderEvent) (s t : JobState)
    (h : applyEvent e s = some t) (hinv : JobInvariant s) : JobInvariant t := by
  obtain ⟨hA, hB, hC⟩ := hinv
  cases e with
  | workerStart i =>
      simp only [applyEvent] at h
      split at h
      next r hr =>
        split at h
        next hst =>
          have ht := Option.some.inj h
          subst ht
          refine ⟨by simpa [List.length_set] using hA, by simpa using hB, ?_⟩
          intro hsome r2 hmem2
          exfalso
          have hmem : r ∈ s.records := mem_of_getElem_eq_some hr
          have hsucc := hC (by simpa using hsome) r hmem
          rw [hsucc] at hst
          exact ChunkState.noConfusion hst
        next hst => exact absurd h (by simp)
      next hr => exact absurd h (by simp)
  | workerSucceed i key dur =>
      simp only [applyEvent] at h
      split at h
      next r hr =>
        split at h
        next hst =>
          have ht := Option.some.inj h
          subst ht
          refine ⟨by simpa [List.length_set] using hA, by simpa using hB, ?_⟩
          intro hsome r2 hmem2
          exfalso
          have hmem : r ∈ s.records := mem_of_getElem_eq_some hr
          have hsucc := hC (by simpa using hsome) r hmem
          rw [hsucc] at hst
          exact ChunkState.noConfusion hst
        next hst => exact absurd h (by simp)
      next hr => exact absurd h (by simp)
  | workerFail i msg dur ts fatal =>
      simp only [applyEvent] at h
      split at h
      next r hr =>
        split at h
        next hst =>
          have ht := Option.some.inj h
          subst ht
          refine ⟨by simpa [List.length_set] using hA, by simpa using hB, ?_⟩
          intro hsome r2 hmem2
          exfalso
          have hmem : r ∈ s.records := mem_of_getElem_eq_some hr
          have hsucc := hC (by simpa using hsome) r hmem
          rw [hsucc] at hst
          exact ChunkState.noConfusion hst
        next hst => exact absurd h (by simp)
      next hr => exact absurd h (by simp)
  | retryChunk i =>
      simp only [applyEvent] at h
      split at h
      next r hr =>
        split at h
        next hst =>
          have ht := Option.some.inj h
          subst ht
          refine ⟨by simpa [List.length_set] using hA, by simpa using hB, ?_⟩
          intro hsome r2 hmem2
          exfalso
          have hmem : r ∈ s.records := mem_of_getElem_eq_some hr
          have hsucc := hC (by simpa using hsome) r hmem
          rw [hsucc] at hst
          exact ChunkState.noConfusion hst
        next hst => exact absurd h (by simp)
      next hr => exact absurd h (by simp)
  | stitchStart =>
      simp only [applyEvent] at h
      split at h
      next hg =>
        have ht := Option.some.inj h
        subst ht
        refine ⟨by simpa using hA, by simpa using hB, ?_⟩
        intro _ r hmem
        simp only [Bool.and_eq_true, List.all_eq_true, beq_iff_eq] at hg
        exact hg.1.1.1 r hmem
      next hg => exact absurd h (by simp)
  | stitchProgress n =>
      simp only [applyEvent] at h
      split at h
      next m hp =>
        split at h
        next hg =>
          have ht := Option.some.inj h
          subst ht
          refine ⟨by simpa using hA, by simpa using hB, ?_⟩
          intro _ r hmem
          exact hC (by simp [hp]) r hmem
        next hg => exact absurd h (by simp)
      next hp => exact absurd h (by simp)
  | stitchComplete file key now =>
      simp only [applyEvent] at h
      split at h
      next m hp =>
        split at h
        next hg =>
          have ht := Option.some.inj h
          subst ht
          refine ⟨by simpa using hA, by simp, ?_⟩
          intro _ r hmem
          exact hC (by simp [hp]) r hmem
        next hg => exact absurd h (by simp)
      next hp => exact absurd h (by simp)
  | stitchFail msg ts =>
      simp only [applyEvent] at h
      split at h
      next m hp =>
        split at h
        next hg =>
          have ht := Option.some.inj h
          subst ht
          refine ⟨by simpa using hA, by simpa using hB, ?_⟩
          intro _ r hmem
          exact hC (by simp [hp]) r hmem
        next hg => exact absurd h (by simp)
      next hp => exact absurd h (by simp)

theorem applyEvent_succeededCount_mono (e : RenderEvent) (s t : JobState)
    (h : applyEvent e s = some t) : succeededCount s ≤ succeededCount t := by
  cases e with
  | workerStart i =>
      simp only [applyEvent] at h
      split at h
      next r hr =>
        split at h
        next hst =>
          have ht := Option.some.inj h
          subst ht
          have hcp := countP_set_eq (fun r => r.state == ChunkState.Succeeded)
            s.records i r
            { r with state := ChunkState.Invoked, attemptCount := r.attemptCount + 1 } hr
          simp only [hst] at hcp
          simp only [succeededCount]
          simp at hcp
          omega
        next hst => exact absurd h (by simp)
      next hr => exact absurd h (by simp)
  | workerSucceed i key dur =>
      simp only [applyEvent] at h
      split at h
      next r hr =>
        split at h
        next hst =>
          have ht := Option.some.inj h
          subst ht
          have hcp := countP_set_eq (fun r => r.state == ChunkState.Succeeded)
            s.records i r
            { r with state := ChunkState.Succeeded, durationMs := some dur,
                     artifactKey := some key } hr
          simp only [hst] at hcp
          simp only [succeededCount]
          simp at hcp
          omega
        next hst => exact absurd h (by simp)
      next hr => exact absurd h (by simp)
  | workerFail i msg dur ts fatal =>
      simp only [applyEvent] at h
      split at h
      next r hr =>
        split at h
        next hst =>
          have ht := Option.some.inj h
          subst ht
          have hcp := countP_set_eq (fun r => r.state == ChunkState.Succeeded)
            s.records i r
            { r with state := ChunkState.Failed, durationMs := some dur,
                     errorMessage := some msg } hr
          simp only [hst] at hcp
          simp only [succeededCount]
          simp at hcp
          omega
        next hst => exact absurd h (by simp)
      next hr => exact absurd h (by simp)
  | retryChunk i =>
      simp only [applyEvent] at h
      split at h
      next r hr =>
        split at h
        next hst =>
          have ht := Option.some.inj h
          subst ht
          have hcp := countP_set_eq (fun r => r.state == ChunkState.Succeeded)
            s.records i r
            { r with state := ChunkState.Invoked, attemptCount := r.attemptCount + 1 } hr
          simp only [hst] at hcp
          simp only [succeededCount]
          simp at hcp
          omega
        next hst => exact absurd h (by simp)
      next hr => exact absurd h (by simp)
  | stitchStart =>
      simp only [applyEvent] at h
      split at h
      next hg =>
        have ht := Option.some.inj h
        subst ht
        simp [succeededCount]
      next hg => exact absurd h (by simp)
  | stitchProgress n =>
      simp only [applyEvent] at h
      split at h
      next m hp =>
        split at h
        next hg =>
          have ht := Option.some.inj h
          subst ht
          simp [succeededCount]
        next hg => exact absurd h (by simp)
      next hp => exact absurd h (by simp)
  | stitchComplete file key now =>
      simp only [applyEvent] at h
      split at h
      next m hp =>
        split at h
        next hg =>
          have ht := Option.some.inj h
          subst ht
          simp [succeededCount]
        next hg => exact absurd h (by simp)
      next hp => exact absurd h (by simp)
  | stitchFail msg ts =>
      simp only [applyEvent] at h
      split at h
      next m hp =>
        split at h
        next hg =>
          have ht := Option.some.inj h
          subst ht
          simp [succeededCount]
        next hg => exact absurd h (by simp)
      next hp => exact absurd h (by simp)

theorem stepStar_invariant {s t : JobState} (hst : StepStar s t)
    (hinv : JobInvariant s) : JobInvariant t := by
  induction hst with
  | refl => exact hinv
  | tail hab hbc ih =>
      obtain ⟨e, he⟩ := hbc
      exact applyEvent_preserves_invariant e _ _ he ih

theorem stepStar_succeededCount_mono {s t : JobState} (hst : StepStar s t) :
    succeededCount s ≤ succeededCount t := by
  induction hst with
  | refl => exact Nat.le_refl _
  | tail hab hbc ih =>
      obtain ⟨e, he⟩ := hbc
      exact Nat.le_trans ih (applyEvent_succeededCount_mono e _ _ he)

theorem dispatchRender_invariant (inp : DispatchInput) (invokeOk : Nat → Bool)
    (s0 : JobState) (h : dispatchRender inp invokeOk = Except.ok s0) :
    JobInvariant s0 := by
  unfold dispatchRender at h
  split at h
  next e hp => exact absurd h (by simp)
  next ranges hp =>
      have h0 := Except.ok.inj h
      subst h0
      refine ⟨by simp, by simp, by simp⟩

theorem reached_invariant {s : JobState} (hs : Reached s) : JobInvariant s := by
  obtain ⟨inp, invokeOk, s0, h0, hstar⟩ := hs
  exact stepStar_invariant hstar (dispatchRender_invariant inp invokeOk s0 h0)

theorem demoDispatch : dispatchRender demoInput (fun _ => true) = Except.ok demoState := by
  rfl

theorem demoStep1 : StepRel demoState demoS1 :=
  ⟨RenderEvent.workerSucceed 0 "chunk0" 1500, by rfl⟩

theorem demoStep2 : StepRel demoS1 demoS2 :=
  ⟨RenderEvent.workerSucceed 1 "chunk1" 2200, by rfl⟩

theorem demoStep3 : StepRel demoS2 demoS3 :=
  ⟨RenderEvent.stitchStart, by rfl⟩

theorem demoStarS2 : StepStar demoState demoS2 :=
  Relation.ReflTransGen.tail
    (Relation.ReflTransGen.tail Relation.ReflTransGen.refl demoStep1) demoStep2

theorem demoStarS3 : StepStar demoState demoS3 :=
  Relation.ReflTransGen.tail demoStarS2 demoStep3

theorem demoReachedS3 : Reached demoS3 :=
  ⟨demoInput, fun _ => true, demoState, demoDispatch, demoStarS3⟩

/-- C2: in every snapshot returned by getRenderProgress on a reachable
job state, done = true holds exactly when outputFile, outKey and
timeToFinish are all non-null. -/
theorem progressDone_iff_outputs (s : JobState) (hs : Reached s) :
    (getRenderProgress s).done = true
      ↔ ((getRenderProgress s).outputFile ≠ none
          ∧ (getRenderProgress s).outKey ≠ none
          ∧ (getRenderProgress s).timeToFinish ≠ none) := by
  obtain ⟨-, hB, -⟩ := reached_invariant hs
  simpa [getRenderProgress, Option.isSome_iff_ne_none] using hB

/-- C2 witness: the snapshot right after dispatch (not done, all three
null). -/
theorem progressDone_iff_outputs_witness :
    (getRenderProgress demoState).done = true
      ↔ ((getRenderProgress demoState).outputFile ≠ none
          ∧ (getRenderProgress demoState).outKey ≠ none
          ∧ (getRenderProgress demoState).timeToFinish ≠ none) :=
  progressDone_iff_outputs demoState
    ⟨demoInput, fun _ => true, demoState, demoDispatch, Relation.ReflTransGen.refl⟩

/-- C3: in every snapshot of a reachable job state, a non-null
encodingStatus implies chunks equals totalChunks: stitching only begins
once every chunk record has Succeeded. -/
theorem progressEncoding_implies_chunks_eq (s : JobState) (hs : Reached s)
    (henc : (getRenderProgress s).encodingStatus ≠ none) :
    (getRenderProgress s).chunks = (getRenderProgress s).totalChunks := by
  obtain ⟨hA, -, hC⟩ := reached_invariant hs
  simp only [getRenderProgress] at henc ⊢
  by_cases hd : s.done
  · simp [hd] at henc
  · simp only [if_neg hd] at henc
    have hsome : s.encodingProgress.isSome := Option.ne_none_iff_isSome.mp henc
    have hall := hC hsome
    rw [← hA]
    rw [List.countP_eq_length]
    intro r hr
    simp [hall r hr]

/-- C3 witness: the state where the Stitcher has just begun on the demo
job. -/
theorem progressEncoding_implies_chunks_eq_witness :
    (getRenderProgress demoS3).chunks = (getRenderProgress demoS3).totalChunks :=
  progressEncoding_implies_chunks_eq demoS3 demoReachedS3 (by decide)

/-- C4: the chunks field never exceeds totalChunks, in the earlier and
the later of two successive reads, and is monotonically non-decreasing
between the two reads while no fatal error has been encountered. -/
theorem progressChunks_bounded_monotone (s t : JobState) (hs : Reached s)
    (hst : StepStar s t)
    (hf : (getRenderProgress t).fatalErrorEncountered = false) :
    (getRenderProgress s).chunks ≤ (getRenderProgress s).totalChunks
    ∧ (getRenderProgress t).chunks ≤ (getRenderProgress t).totalChunks
    ∧ (getRenderProgress s).chunks ≤ (getRenderProgress t).chunks := by
  have hreach_t : Reached t := by
    obtain ⟨inp, invokeOk, s0, h0, hstar⟩ := hs
    exact ⟨inp, invokeOk, s0, h0, Relation.ReflTransGen.trans hstar hst⟩
  obtain ⟨hAs, -, -⟩ := reached_invariant hs
  obtain ⟨hAt, -, -⟩ := reached_invariant hreach_t
  refine ⟨?_, ?_, ?_⟩
  · simp only [getRenderProgress]
    rw [← hAs]
    exact List.countP_le_length _
  · simp only [getRenderProgress]
    rw [← hAt]
    exact List.countP_le_length _
  · exact stepStar_succeededCount_mono hst

/-- C4 witness: two successive reads of the demo job, two chunk
completions apart, with no fatal error. -/
theorem progressChunks_bounded_monotone_witness :
    (getRenderProgress demoState).chunks ≤ (getRenderProgress demoState).totalChunks
    ∧ (getRenderProgress demoS2).chunks ≤ (getRenderProgress demoS2).totalChunks
    ∧ (getRenderProgress demoState).chunks ≤ (getRenderProgress demoS2).chunks :=
  progressChunks_bounded_monotone demoState demoS2
    ⟨demoInput, fun _ => true, demoState, demoDispatch, Relation.ReflTransGen.refl⟩
    demoStarS2 (by decide)

/- ### Cost estimator lemmas -/

theorem natCeilDiv_mul_ge (d b : Nat) (hb : 0 < b) : d ≤ (d + b - 1) / b * b := by
  rcases Nat.eq_zero_or_pos d with hd | hd
  · omega
  · obtain ⟨e, rfl⟩ : ∃ e, d = e + 1 := ⟨d - 1, by omega⟩
    have h1 : (e + 1 + b - 1) / b = e / b + 1 := by
      have he : e + 1 + b - 1 = e + b := by omega
      rw [he, Nat.add_div_right _ hb]
    rw [h1]
    have hexp : (e / b + 1) * b = e / b * b + b := by ring
    rw [hexp]
    have hdm : b * (e / b) + e % b = e := Nat.div_add_mod e b
    have hml : e % b < b := Nat.mod_lt _ hb
    have hcomm : b * (e / b) = e / b * b := Nat.mul_comm _ _
    linarith

theorem natCeilDiv_mul_lt (d b : Nat) (hb : 0 < b) : (d + b - 1) / b * b < d + b := by
  have h1 : (d + b - 1) / b * b ≤ d + b - 1 := Nat.div_mul_le_self _ _
  have h2 : d + b - 1 < d + b := by omega
  linarith

theorem natCeilDiv_cast (d b : Nat) (hb : 0 < b) :
    (((d + b - 1) / b : Nat) : ℤ) = ⌈(d : ℚ) / (b : ℚ)⌉ := by
  have hbQ : (0 : ℚ) < (b : ℚ) := by exact_mod_cast hb
  have key1 : d ≤ (d + b - 1) / b * b := natCeilDiv_mul_ge d b hb
  have key2 : (d + b - 1) / b * b < d + b := natCeilDiv_mul_lt d b hb
  have key1Q : (d : ℚ) ≤ (((d + b - 1) / b : Nat) : ℚ) * (b : ℚ) := by
    exact_mod_cast key1
  have key2Q : (((d + b - 1) / b : Nat) : ℚ) * (b : ℚ) < (d : ℚ) + (b : ℚ) := by
    exact_mod_cast key2
  symm
  rw [Int.ceil_eq_iff]
  have hcc : (((((d + b - 1) / b : Nat) : ℤ)) : ℚ) = (((d + b - 1) / b : Nat) : ℚ) := by
    norm_cast
  rw [hcc]
  constructor
  · rw [lt_div_iff₀ hbQ]
    have hexpand : ((((d + b - 1) / b : Nat) : ℚ) - 1) * (b : ℚ)
        = (((d + b - 1) / b : Nat) : ℚ) * (b : ℚ) - (b : ℚ) := by ring
    rw [hexpand]
    linarith
  · rw [div_le_iff₀ hbQ]
    linarith

theorem billedDurationMs_eq_ceil (p : CostParameters) (d : Nat)
    (hb : 0 < p.billingIncrementMs) :
    (billedDurationMs p d : ℚ)
      = (⌈(d : ℚ) / (p.billingIncrementMs : ℚ)⌉ : ℚ) * (p.billingIncrementMs : ℚ) := by
  unfold billedDurationMs
  have hc := natCeilDiv_cast d p.billingIncrementMs hb
  have hcQ : (((d + p.billingIncrementMs - 1) / p.billingIncrementMs : Nat) : ℚ)
      = (⌈(d : ℚ) / (p.billingIncrementMs : ℚ)⌉ : ℚ) := by
    rw [← hc]
    norm_cast
  push_cast
  rw [hcQ]

theorem recordCost_eq_ceil (p : CostParameters) (r : ChunkInvocationRecord)
    (hb : 0 < p.billingIncrementMs) :
    recordCost p r
      = match r.durationMs with
        | none => 0
        | some d =>
            ((⌈(d : ℚ) / (p.billingIncrementMs : ℚ)⌉ : ℚ) * (p.billingIncrementMs : ℚ))
              * p.pricePerMsPerMb * (r.memorySizeMb : ℚ) := by
  unfold recordCost
  cases r.durationMs with
  | none => rfl
  | some d =>
      dsimp only
      rw [billedDurationMs_eq_ceil p d hb]

theorem estimatePrice_eq_map_sum (p : CostParameters)
    (records : List ChunkInvocationRecord) (lambdasInvoked : Nat) :
    estimatePrice p records lambdasInvoked
      = (records.map (recordCost p)).sum
        + p.perInvocationBaseCharge * (lambdasInvoked : ℚ) := by
  unfold estimatePrice
  congr 1
  rw [List.sum_eq_foldl, List.foldl_map]

/-- C5: the cost estimate equals the sum, over all records carrying a
recorded durationMs (every attempt, of any state, including retried and
failed ones), of ceil(durationMs / billingIncrementMs) *
billingIncrementMs * pricePerMsPerMb * memorySizeMb, plus
perInvocationBaseCharge * lambdasInvoked; every duration is rounded up to
the billing increment; and replacing the state of every record changes
nothing. -/
theorem costEstimator_formula (p : CostParameters)
    (records : List ChunkInvocationRecord) (lambdasInvoked : Nat)
    (hb : 0 < p.billingIncrementMs) :
    estimatePrice p records lambdasInvoked
      = (records.map (fun r =>
          match r.durationMs with
          | none => 0
          | some d =>
              ((⌈(d : ℚ) / (p.billingIncrementMs : ℚ)⌉ : ℚ)
                  * (p.billingIncrementMs : ℚ))
                * p.pricePerMsPerMb * (r.memorySizeMb : ℚ))).sum
        + p.perInvocationBaseCharge * (lambdasInvoked : ℚ)
    ∧ (∀ d : Nat, (d : ℚ) ≤ (billedDurationMs p d : ℚ))
    ∧ (∀ newState : ChunkInvocationRecord → ChunkState,
        estimatePrice p (records.map (fun r => { r with state := newState r }))
            lambdasInvoked
          = estimatePrice p records lambdasInvoked) := by
  refine ⟨?_, ?_, ?_⟩
  · rw [estimatePrice_eq_map_sum]
    congr 1
    congr 1
    apply List.map_congr_left
    intro r hr
    exact recordCost_eq_ceil p r hb
  · intro d
    have h1 : d ≤ billedDurationMs p d := by
      unfold billedDurationMs
      exact natCeilDiv_mul_ge d p.billingIncrementMs hb
    exact_mod_cast h1
  · intro newState
    rw [estimatePrice_eq_map_sum, estimatePrice_eq_map_sum, List.map_map]
    congr 1

/-- C5 witness: the spec's cost example, durations 1500 ms and 2200 ms at
billing increment 100 ms. -/
theorem costEstimator_formula_witness :
    estimatePrice
        { billingIncrementMs := 100, pricePerMsPerMb := 1 / 1000000,
          perInvocationBaseCharge := 1 / 5000000 }
        [{ chunkIndex := 0, frameRange := (0, 2), state := ChunkState.Succeeded,
           attemptCount := 1, durationMs := some 1500, memorySizeMb := 2048,
           artifactKey := some "chunk0", errorMessage := none },
         { chunkIndex := 1, frameRange := (2, 4), state := ChunkState.Failed,
           attemptCount := 1, durationMs := some 2200, memorySizeMb := 2048,
           artifactKey := none, errorMessage := some "boom" }] 2
      = ([({ chunkIndex := 0, frameRange := (0, 2), state := ChunkState.Succeeded,
             attemptCount := 1, durationMs := some 1500, memorySizeMb := 2048,
             artifactKey := some "chunk0", errorMessage := none } : ChunkInvocationRecord),
          { chunkIndex := 1, frameRange := (2, 4), state := ChunkState.Failed,
            attemptCount := 1, durationMs := some 2200, memorySizeMb := 2048,
            artifactKey := none, errorMessage := some "boom" }].map (fun r =>
          match r.durationMs with
          | none => 0
          | some d =>
              ((⌈(d : ℚ) / ((100 : Nat) : ℚ)⌉ : ℚ) * (((100 : Nat)) : ℚ))
                * (1 / 1000000) * (r.memorySizeMb : ℚ))).sum
        + (1 / 5000000) * ((2 : Nat) : ℚ) :=
  (costEstimator_formula
    { billingIncrementMs := 100, pricePerMsPerMb := 1 / 1000000,
      perInvocationBaseCharge := 1 / 5000000 }
    [{ chunkIndex := 0, frameRange := (0, 2), state := ChunkState.Succeeded,
       attemptCount := 1, durationMs := some 1500, memorySizeMb := 2048,
       artifactKey := some "chunk0", errorMessage := none },
     { chunkIndex := 1, frameRange := (2, 4), state := ChunkState.Failed,
       attemptCount := 1, durationMs := some 2200, memorySizeMb := 2048,
       artifactKey := none, errorMessage := some "boom" }] 2 (by decide)).1

/-- C6: once done = true has been written, re-invoking the Stitcher
leaves the job state unchanged: the final artifact, outputFile, outKey
and timeToFinish are identical before and after. -/
theorem stitcher_noop_after_done (s : JobState) (file key : String) (now : Nat)
    (hdone : s.done = true) :
    runStitcher s file key now = s
    ∧ (runStitcher s file key now).finalArtifact = s.finalArtifact
    ∧ (runStitcher s file key now).outputFile = s.outputFile
    ∧ (runStitcher s file key now).outKey = s.outKey
    ∧ (runStitcher s file key now).timeToFinish = s.timeToFinish := by
  unfold runStitcher
  simp [hdone]

/-- C6 witness: re-running the Stitcher on the completed demo job. -/
theorem stitcher_noop_after_done_witness :
    runStitcher demoS4 "https://other/out.mp4" "renders/demo/out2.mp4" 99 = demoS4
    ∧ (runStitcher demoS4 "https://other/out.mp4" "renders/demo/out2.mp4" 99).finalArtifact
        = demoS4.finalArtifact
    ∧ (runStitcher demoS4 "https://other/out.mp4" "renders/demo/out2.mp4" 99).outputFile
        = demoS4.outputFile
    ∧ (runStitcher demoS4 "https://other/out.mp4" "renders/demo/out2.mp4" 99).outKey
        = demoS4.outKey
    ∧ (runStitcher demoS4 "https://other/out.mp4" "renders/demo/out2.mp4" 99).timeToFinish
        = demoS4.timeToFinish :=
  stitcher_noop_after_done demoS4 "https://other/out.mp4" "renders/demo/out2.mp4" 99
    (by decide)

/-- C7: dispatchRender fails synchronously exactly when totalFrames <= 0,
and then with InvalidFrameCount; every other failure mode is recorded in
state rather than surfaced to the caller. -/
theorem dispatch_sync_error_iff (inp : DispatchInput) (invokeOk : Nat → Bool)
    (e : RenderErrorKind) :
    dispatchRender inp invokeOk = Except.error e
      ↔ (inp.totalFrames ≤ 0 ∧ e = RenderErrorKind.InvalidFrameCount) := by
  unfold dispatchRender planChunks
  by_cases h : inp.totalFrames ≤ 0
  · simp only [if_pos h]
    constructor
    · intro he
      have := Except.error.inj he
      exact ⟨h, this.symm⟩
    · rintro ⟨-, rfl⟩
      rfl
  · simp only [if_neg h]
    constructor
    · intro he
      exact absurd he (by simp)
    · rintro ⟨hc, -⟩
      exact absurd hc h

/-- C7 witness: dispatching zero frames is rejected with
InvalidFrameCount. -/
theorem dispatch_sync_error_iff_witness :
    dispatchRender
        { renderId := "w", totalFrames := 0, concurrencyBound := 5,
          usesOptimizationProfile := false, startedDate := 0, memorySizeMb := 1024 }
        (fun _ => true)
      = Except.error RenderErrorKind.InvalidFrameCount :=
  (dispatch_sync_error_iff
    { renderId := "w", totalFrames := 0, concurrencyBound := 5,
      usesOptimizationProfile := false, startedDate := 0, memorySizeMb := 1024 }
    (fun _ => true) RenderErrorKind.InvalidFrameCount).2 ⟨by decide, rfl⟩

end Remotion
